import Mathlib

set_option maxHeartbeats 1000000

/-!
Verification of the 1-D Discontinuous Galerkin Euler solver (src/dg1d/euler/euler.py)
against its design specification.

The solver is embedded shallowly over the rationals.  The external collaborators
(basis functions, Gauss rule, physical flux, numerical flux, maximum wave speed)
are parameters collected in `DGCtx`; modal coefficient arrays are total functions
over natural-number indices, operated on only inside the index ranges the code
touches.  Every definition follows the corresponding lines of euler.py.
-/

namespace DG1D

/-- Number of uniform evaluation points, `nu = np.max([2, k+1])` (euler.py line 56). -/
def nuOf (k : ℕ) : ℕ := max 2 (k + 1)

/-- SSPRK3 coefficient array `ark = np.array([0.0, 3.0/4.0, 1.0/3.0])` (euler.py line 8). -/
def arkN : ℕ → ℚ
  | 0 => 0
  | 1 => 3 / 4
  | 2 => 1 / 3
  | _ => 0

/-- SSPRK3 coefficient array `brk = 1.0 - ark` (euler.py line 9). -/
def brkN (r : ℕ) : ℚ := 1 - arkN r

/-- Normalized CFL number `cfl = args.cfl/(2*k+1)` (euler.py line 36). -/
def cflOf (argcfl : ℚ) (k : ℕ) : ℚ := argcfl / (2 * (k : ℚ) + 1)

/-- The configuration and external collaborators the solver reads: polynomial
degree `k`, cell count `nc`, the basis value/gradient functions (the basis
module), the Gauss nodes and weights (`np.polynomial.legendre.leggauss`),
the physical flux and the two-point numerical flux (the sod module). -/
structure DGCtx where
  k : ℕ
  nc : ℕ
  shape_value : ℕ → ℚ → ℚ
  shape_grad : ℕ → ℚ → ℚ
  xg : ℕ → ℚ
  wg : ℕ → ℚ
  flux : ℚ → ℚ → ℚ → ℚ × ℚ × ℚ
  numflux : ℚ × ℚ × ℚ → ℚ × ℚ × ℚ → ℚ × ℚ × ℚ

/-- The three conserved modal-coefficient arrays `rho`, `mom`, `ene`,
each conceptually shaped `[nc][nd]` (euler.py lines 97-105). -/
@[ext]
structure EState where
  rho : ℕ → ℕ → ℚ
  mom : ℕ → ℕ → ℚ
  ene : ℕ → ℕ → ℚ

/-- Vandermonde matrix at Gauss points, `Vf[i,j] = shape_value(j, xg[i])`
(euler.py lines 47-52). -/
def Vf (C : DGCtx) (q j : ℕ) : ℚ := C.shape_value j (C.xg q)

/-- Gradient Vandermonde matrix at Gauss points, `Vg[i,j] = shape_grad(j, xg[i])`
(euler.py lines 48-52). -/
def Vg (C : DGCtx) (q j : ℕ) : ℚ := C.shape_grad j (C.xg q)

/-- Uniform points in the reference cell, `xu = np.linspace(-1.0, +1.0, nu)`
(euler.py line 57). -/
def xu (C : DGCtx) (r : ℕ) : ℚ := -1 + 2 * (r : ℚ) / ((nuOf C.k - 1 : ℕ) : ℚ)

/-- Vandermonde matrix at the uniform points, `Vu[i,j] = shape_value(j, xu[i])`
(euler.py lines 58-61). -/
def Vu (C : DGCtx) (r j : ℕ) : ℚ := C.shape_value j (xu C r)

/-- Solution value at a Gauss point, `Vf.dot(a[i,:])` entry `q`
(euler.py lines 139-141). -/
def evalVf (C : DGCtx) (a : ℕ → ℕ → ℚ) (i q : ℕ) : ℚ :=
  ∑ j ∈ Finset.range (C.k + 1), Vf C q j * a i j

/-- Physical flux at Gauss point `q` of cell `i`,
`frho,fmom,fene = flux(rho,mom,ene)` (euler.py line 142). -/
def gaussFlux (C : DGCtx) (u : EState) (i q : ℕ) : ℚ × ℚ × ℚ :=
  C.flux (evalVf C u.rho i q) (evalVf C u.mom i q) (evalVf C u.ene i q)

/-- Volume part of the residual, `res[i,j] = -f.dot(Vg[:,j]*wg)` for the flux
component selected by `c` (euler.py lines 143-146). -/
def volres (C : DGCtx) (c : ℚ × ℚ × ℚ → ℚ) (u : EState) (i j : ℕ) : ℚ :=
  -(∑ q ∈ Finset.range (C.k + 1), c (gaussFlux C u i q) * Vg C q j * C.wg q)

/-- Edge evaluation of one field, `a[i,:].dot(Vu[r,:])` (euler.py lines 148-153,
161-166, 175-180). -/
def edgeVal (C : DGCtx) (a : ℕ → ℕ → ℚ) (i r : ℕ) : ℚ :=
  ∑ j ∈ Finset.range (C.k + 1), a i j * Vu C r j

/-- The triple `[rho, mom, ene]` evaluated at row `r` of `Vu` for cell `i`. -/
def edgeState (C : DGCtx) (u : EState) (i r : ℕ) : ℚ × ℚ × ℚ :=
  (edgeVal C u.rho i r, edgeVal C u.mom i r, edgeVal C u.ene i r)

/-- First-face numerical flux: cell 0 evaluated at row `Vu[0,:]` is passed as
both arguments (euler.py lines 147-154). -/
def firstF (C : DGCtx) (u : EState) : ℚ × ℚ × ℚ :=
  C.numflux (edgeState C u 0 0) (edgeState C u 0 0)

/-- Interior-face numerical flux at face `m` (between cells `m-1` and `m`):
left state from cell `m-1` at row `Vu[-1,:]`, right state from cell `m` at row
`Vu[0,:]` (euler.py lines 160-167). -/
def intF (C : DGCtx) (u : EState) (m : ℕ) : ℚ × ℚ × ℚ :=
  C.numflux (edgeState C u (m - 1) (nuOf C.k - 1)) (edgeState C u m 0)

/-- Last-face numerical flux: cell `nc-1` evaluated at row `Vu[0,:]` is passed
as both arguments, exactly as the code does (euler.py lines 174-181). -/
def lastF (C : DGCtx) (u : EState) : ℚ × ℚ × ℚ :=
  C.numflux (edgeState C u (C.nc - 1) 0) (edgeState C u (C.nc - 1) 0)

/-- Accumulated interior-face contributions to the residual of cell `i`,
mode `j`: face `m` adds `+f*Vu[-1,:]` to cell `m-1` and `-f*Vu[0,:]` to cell `m`
(euler.py lines 160-173).  The loop accumulations commute, so they are written
as a sum over the faces `m ∈ range(1, nc)`. -/
def faceInterior (C : DGCtx) (c : ℚ × ℚ × ℚ → ℚ) (u : EState) (i j : ℕ) : ℚ :=
  ∑ m ∈ Finset.Ico 1 C.nc,
    ((if i = m - 1 then c (intF C u m) * Vu C (nuOf C.k - 1) j else 0)
      + (if i = m then -(c (intF C u m)) * Vu C 0 j else 0))

/-- Total face contribution to the residual: first face subtracts
`f*Vu[0,:]` from cell 0 (lines 155-157), interior faces accumulate pairwise
(lines 160-173), and the last face adds `f*Vu[0,:]` to cell `nc-1`
(lines 182-184). -/
def faceres (C : DGCtx) (c : ℚ × ℚ × ℚ → ℚ) (u : EState) (i j : ℕ) : ℚ :=
  (if i = 0 then -(c (firstF C u)) * Vu C 0 j else 0)
    + faceInterior C c u i j
    + (if i = C.nc - 1 then c (lastF C u) * Vu C 0 j else 0)

/-- Assembled density residual `resr` (euler.py lines 143-184). -/
def resr (C : DGCtx) (u : EState) (i j : ℕ) : ℚ :=
  volres C (fun f => f.1) u i j + faceres C (fun f => f.1) u i j

/-- Assembled momentum residual `resm` (euler.py lines 143-184). -/
def resm (C : DGCtx) (u : EState) (i j : ℕ) : ℚ :=
  volres C (fun f => f.2.1) u i j + faceres C (fun f => f.2.1) u i j

/-- Assembled energy residual `rese` (euler.py lines 143-184). -/
def rese (C : DGCtx) (u : EState) (i j : ℕ) : ℚ :=
  volres C (fun f => f.2.2) u i j + faceres C (fun f => f.2.2) u i j

/-- One RK stage, `u1 = ark[rk]*u0 + brk[rk]*(u1 - lam*res)` for the three
fields simultaneously (euler.py lines 186-188). -/
def stageU (C : DGCtx) (lam : ℚ) (r : ℕ) (u0 v : EState) : EState where
  rho := fun i j => arkN r * u0.rho i j + brkN r * (v.rho i j - lam * resr C v i j)
  mom := fun i j => arkN r * u0.mom i j + brkN r * (v.mom i j - lam * resm C v i j)
  ene := fun i j => arkN r * u0.ene i j + brkN r * (v.ene i j - lam * rese C v i j)

/-- One full time step: `for rk in range(3)` applying the stage update with the
step-start state as `u0` (euler.py lines 134-188). -/
def eulerStep (C : DGCtx) (lam : ℚ) (u : EState) : EState :=
  (List.range 3).foldl (fun v r => stageU C lam r u v) u

/-- The state of the time loop: current time `t`, step size `dt` and the
solution `u` (euler.py lines 123-126). -/
@[ext]
structure LoopSt (U : Type) where
  t : ℚ
  dt : ℚ
  u : U

/-- One iteration of `while t < Tf`: clip `dt = Tf - t` when `t+dt > Tf`,
rescale `lam = dt/dx`, advance the state and increment `t += dt`
(euler.py lines 127-189). -/
def loopIter {U : Type} (Tf dx : ℚ) (ev : ℚ → U → U) (s : LoopSt U) : LoopSt U :=
  if s.t < Tf then
    let dt := if s.t + s.dt > Tf then Tf - s.t else s.dt
    { t := s.t + dt, dt := dt, u := ev (dt / dx) s.u }
  else s

/-- Cell center `xc = xmin + i*dx + 0.5*dx` (euler.py line 109). -/
def xcOf (xmin dx : ℚ) (i : ℕ) : ℚ := xmin + (i : ℚ) * dx + dx / 2

/-- L2 projection of the initial condition onto the modal basis:
`coef[i,j] = 0.5 * f(xc + 0.5*dx*xg).dot(Vf[:,j]*wg)` (euler.py lines 108-115),
written for one scalar field `f`. -/
def l2proj (C : DGCtx) (xmin dx : ℚ) (f : ℚ → ℚ) (i j : ℕ) : ℚ :=
  1 / 2 * ∑ q ∈ Finset.range (C.k + 1),
    f (xcOf xmin dx i + dx / 2 * C.xg q) * Vf C q j * C.wg q

/-- The per-cell polynomial represented by modal coefficients, evaluated at a
reference coordinate: `sum_j coef[i,j]*shape_value(j, z)`. -/
def cellPoly (C : DGCtx) (coef : ℕ → ℕ → ℚ) (i : ℕ) (z : ℚ) : ℚ :=
  ∑ j ∈ Finset.range (C.k + 1), coef i j * C.shape_value j z

/-- Quadrature evaluation of the domain integral of the piecewise polynomial
with coefficient array `a`: per cell, `(dx/2) * wg.dot(Vf.dot(a[i,:]))`,
summed over cells.  The Gauss rule of the code is exact through degree `2k+1`,
so this is the total mass when `a` holds density coefficients. -/
def massOf (C : DGCtx) (dx : ℚ) (a : ℕ → ℕ → ℚ) : ℚ :=
  dx / 2 * ∑ i ∈ Finset.range C.nc,
    ∑ q ∈ Finset.range (C.k + 1), C.wg q * ∑ j ∈ Finset.range (C.k + 1), Vf C q j * a i j

/-- Modelled from the spec: the limiter collaborator and its invocation are
absent from src (only `from limiter import *` and the `-limit`/`-tvbM`
arguments exist).  Per the spec, the limiter `L` with threshold `M` "is applied
to `u1` after each stage" of the three-stage step. -/
def stepLimited (C : DGCtx) (lam : ℚ) (L : EState → ℚ → EState) (M : ℚ)
    (u : EState) : EState :=
  (List.range 3).foldl (fun v r => L (stageU C lam r u v) M) u

/-- The mutable buffers of the script during one time step: the step-start
copies `rho0/mom0/ene0` (`us`), the working arrays `rho1/mom1/ene1` (`uw`), and
the residual buffers `resr/resm/rese` (euler.py lines 97-105). -/
structure Buffers where
  us : EState
  uw : EState
  rr : ℕ → ℕ → ℚ
  rm : ℕ → ℕ → ℚ
  re : ℕ → ℕ → ℚ

/-- One RK stage acting on the buffers: the residual arrays are fully
overwritten from the working state (volume assignment lines 143-146 followed by
face accumulation), then the working arrays are updated from `us` and the
fresh residuals (euler.py lines 134-188). -/
def bufStage (C : DGCtx) (lam : ℚ) (r : ℕ) (B : Buffers) : Buffers :=
  { us := B.us
    uw := ⟨fun i j => arkN r * B.us.rho i j + brkN r * (B.uw.rho i j - lam * resr C B.uw i j),
           fun i j => arkN r * B.us.mom i j + brkN r * (B.uw.mom i j - lam * resm C B.uw i j),
           fun i j => arkN r * B.us.ene i j + brkN r * (B.uw.ene i j - lam * rese C B.uw i j)⟩
    rr := fun i j => resr C B.uw i j
    rm := fun i j => resm C B.uw i j
    re := fun i j => rese C B.uw i j }

/-- One full time step on the buffers: first `rho0[:,:] = rho1` etc.
(euler.py lines 131-133), then the three RK stages. -/
def bufStep (C : DGCtx) (lam : ℚ) (B : Buffers) : Buffers :=
  (List.range 3).foldl (fun b r => bufStage C lam r b) { B with us := B.uw }

/-- The configuration surface read by argparse (euler.py lines 14-26). -/
structure Config where
  ncell : ℤ
  degree : ℤ
  cfl : ℚ
  Tf : ℚ
  plot_freq : ℤ
  ic : String
  limit : String
  tvbM : ℚ

/-- The only gate the program applies to a parsed configuration before the
simulation: the initial-condition selector must be `sod`
(euler.py lines 29-33); no other parameter is validated. -/
def configAccepted (c : Config) : Bool := c.ic == "sod"

/-- Concrete degree-0, two-cell instance with the constant orthonormal mode. -/
def Cw1 : DGCtx where
  k := 0
  nc := 2
  shape_value := fun j _x => if j = 0 then 1 else 0
  shape_grad := fun _ _ => 0
  xg := fun _ => 0
  wg := fun _ => 2
  flux := fun a b c => (a, b, c)
  numflux := fun l _r => l

/-- A non-uniform two-cell state for the conservation witness. -/
def uw1 : EState := ⟨fun i _ => if i = 0 then 1 else 3, fun _ _ => 2, fun _ _ => 5⟩

/-- Concrete degree-1, one-cell instance with basis `1, x`: the two `Vu` rows
evaluate at the left edge (-1) and right edge (+1). -/
def Cx2 : DGCtx where
  k := 1
  nc := 1
  shape_value := fun j x => if j = 0 then 1 else if j = 1 then x else 0
  shape_grad := fun j _x => if j = 1 then 1 else 0
  xg := fun _ => 0
  wg := fun _ => 1
  flux := fun _ _ _ => (0, 0, 0)
  numflux := fun l _r => l

/-- State whose density polynomial is `rho(z) = z` (modal coefficients (0,1)). -/
def ux2 : EState := ⟨fun _ j => if j = 1 then 1 else 0, fun _ _ => 0, fun _ _ => 0⟩

/-- Concrete degree-0, two-cell instance whose numerical flux averages the
energy components, so the energy field evolves in time. -/
def Cx4 : DGCtx where
  k := 0
  nc := 2
  shape_value := fun j _x => if j = 0 then 1 else 0
  shape_grad := fun _ _ => 0
  xg := fun _ => 0
  wg := fun _ => 2
  flux := fun _ _ _ => (0, 0, 0)
  numflux := fun l r => (0, 0, (l.2.2 + r.2.2) / 2)

/-- Initial state with an energy jump between the two cells. -/
def ux4 : EState := ⟨fun _ _ => 0, fun _ _ => 0, fun i _ => if i = 0 then 0 else 4⟩

/-- A state-dependent maximum wave speed collaborator for the `Cx4` instance. -/
def ms4 : EState → ℚ := fun u => u.ene 0 0 + 5

/-- Concrete degree-0, one-cell instance with identically zero fluxes, so the
assembled residual vanishes and each RK stage preserves the state. -/
def Cx5 : DGCtx where
  k := 0
  nc := 1
  shape_value := fun j _x => if j = 0 then 1 else 0
  shape_grad := fun _ _ => 0
  xg := fun _ => 0
  wg := fun _ => 2
  flux := fun _ _ _ => (0, 0, 0)
  numflux := fun _ _ => (0, 0, 0)

/-- An all-ones state. -/
def ux5 : EState := ⟨fun _ _ => 1, fun _ _ => 1, fun _ _ => 1⟩

/-- The all-zero state. -/
def zeroSt : EState := ⟨fun _ _ => 0, fun _ _ => 0, fun _ _ => 0⟩

/-- A (legitimate, if brutal) limiter collaborator that clamps everything to
zero, whatever the threshold. -/
def limZero : EState → ℚ → EState := fun _ _ => zeroSt

/-- Concrete degree-1, three-cell instance whose two Gauss nodes are at -1 and
+1 with unit weights, so constants and the linear mode integrate exactly. -/
def Cw7 : DGCtx where
  k := 1
  nc := 3
  shape_value := fun j x => if j = 0 then 1 else if j = 1 then x else 0
  shape_grad := fun j _x => if j = 1 then 1 else 0
  xg := fun q => if q = 0 then -1 else 1
  wg := fun _ => 1
  flux := fun _ _ _ => (0, 0, 0)
  numflux := fun l _r => l

/-- A configuration that is invalid in every parameter the spec says must be
rejected, yet carries the accepted initial-condition selector. -/
def badConfig : Config := ⟨0, -1, -1, -1, 1, "sod", "no", 0⟩

/-- Buffers holding stale residual values 7 and a stale step-start copy. -/
def bufA : Buffers := ⟨zeroSt, ux5, fun _ _ => 7, fun _ _ => 7, fun _ _ => 7⟩

/-- Buffers with the same working state as `bufA` but different stale data. -/
def bufB : Buffers := ⟨ux5, ux5, fun _ _ => 0, fun _ _ => 0, fun _ _ => 0⟩

/-! ## Helper lemmas -/

theorem sum_ite_eq_range (n a : ℕ) (x : ℚ) :
    ∑ i ∈ Finset.range n, (if i = a then x else 0) = if a < n then x else 0 := by
  rw [Finset.sum_ite_eq' (Finset.range n) a fun _ => x]
  simp

theorem massOf_eq_sum (C : DGCtx) (dx : ℚ) (a : ℕ → ℕ → ℚ)
    (hq : ∀ j ∈ Finset.range (C.k + 1),
      ∑ q ∈ Finset.range (C.k + 1), C.wg q * Vf C q j = if j = 0 then 2 else 0) :
    massOf C dx a = dx * ∑ i ∈ Finset.range C.nc, a i 0 := by
  unfold massOf
  have inner : ∀ i, (∑ q ∈ Finset.range (C.k + 1), C.wg q *
      ∑ j ∈ Finset.range (C.k + 1), Vf C q j * a i j) = 2 * a i 0 := by
    intro i
    calc (∑ q ∈ Finset.range (C.k + 1), C.wg q *
          ∑ j ∈ Finset.range (C.k + 1), Vf C q j * a i j)
        = ∑ q ∈ Finset.range (C.k + 1),
            ∑ j ∈ Finset.range (C.k + 1), C.wg q * Vf C q j * a i j := by
          refine Finset.sum_congr rfl fun q _ => ?_
          rw [Finset.mul_sum]
          exact Finset.sum_congr rfl fun j _ => by ring
      _ = ∑ j ∈ Finset.range (C.k + 1),
            ∑ q ∈ Finset.range (C.k + 1), C.wg q * Vf C q j * a i j := Finset.sum_comm
      _ = ∑ j ∈ Finset.range (C.k + 1),
            (∑ q ∈ Finset.range (C.k + 1), C.wg q * Vf C q j) * a i j := by
          exact Finset.sum_congr rfl fun j _ => (Finset.sum_mul _ _ _).symm
      _ = ∑ j ∈ Finset.range (C.k + 1), (if j = 0 then 2 * a i 0 else 0) := by
          refine Finset.sum_congr rfl fun j hj => ?_
          rw [hq j hj]
          by_cases h : j = 0 <;> simp [h]
      _ = 2 * a i 0 := by
          rw [sum_ite_eq_range]
          simp
  rw [Finset.sum_congr rfl fun i _ => inner i, ← Finset.mul_sum]
  ring

theorem Vu_mode0 (C : DGCtx) (h0 : ∀ x, C.shape_value 0 x = 1) (r : ℕ) :
    Vu C r 0 = 1 := h0 (xu C r)

theorem volres_mode0 (C : DGCtx) (c : ℚ × ℚ × ℚ → ℚ) (u : EState) (i : ℕ)
    (hg0 : ∀ x, C.shape_grad 0 x = 0) :
    volres C c u i 0 = 0 := by
  simp [volres, Vg, hg0]

theorem sum_faceInterior_mode0 (C : DGCtx) (c : ℚ × ℚ × ℚ → ℚ) (u : EState)
    (h0 : ∀ x, C.shape_value 0 x = 1) :
    ∑ i ∈ Finset.range C.nc, faceInterior C c u i 0 = 0 := by
  unfold faceInterior
  rw [Finset.sum_comm]
  refine Finset.sum_eq_zero fun m hm => ?_
  obtain ⟨hm1, hm2⟩ := Finset.mem_Ico.mp hm
  rw [Finset.sum_add_distrib, sum_ite_eq_range, sum_ite_eq_range,
    if_pos (by omega : m - 1 < C.nc), if_pos hm2,
    Vu_mode0 C h0, Vu_mode0 C h0]
  ring

theorem sum_faceres_mode0 (C : DGCtx) (c : ℚ × ℚ × ℚ → ℚ) (u : EState)
    (hnc : 0 < C.nc) (h0 : ∀ x, C.shape_value 0 x = 1) :
    ∑ i ∈ Finset.range C.nc, faceres C c u i 0
      = c (lastF C u) - c (firstF C u) := by
  unfold faceres
  rw [Finset.sum_add_distrib, Finset.sum_add_distrib,
    sum_faceInterior_mode0 C c u h0, sum_ite_eq_range, sum_ite_eq_range,
    if_pos hnc, if_pos (by omega : C.nc - 1 < C.nc),
    Vu_mode0 C h0]
  ring

theorem loopIter_none {U : Type} (Tf dx : ℚ) (ev : ℚ → U → U) (s : LoopSt U)
    (h1 : ¬ s.t < Tf) : loopIter Tf dx ev s = s := by
  simp [loopIter, h1]

theorem loopIter_clip {U : Type} (Tf dx : ℚ) (ev : ℚ → U → U) (s : LoopSt U)
    (h1 : s.t < Tf) (h2 : s.t + s.dt > Tf) :
    loopIter Tf dx ev s = ⟨Tf, Tf - s.t, ev ((Tf - s.t) / dx) s.u⟩ := by
  have ht : s.t + (Tf - s.t) = Tf := by ring
  simp [loopIter, h1, h2, ht]

theorem loopIter_step {U : Type} (Tf dx : ℚ) (ev : ℚ → U → U) (s : LoopSt U)
    (h1 : s.t < Tf) (h2 : ¬ s.t + s.dt > Tf) :
    loopIter Tf dx ev s = ⟨s.t + s.dt, s.dt, ev (s.dt / dx) s.u⟩ := by
  simp [loopIter, h1, h2]

theorem loop_t_le {U : Type} (Tf dx : ℚ) (ev : ℚ → U → U) :
    ∀ (n : ℕ) (s : LoopSt U), s.t ≤ Tf → ((loopIter Tf dx ev)^[n] s).t ≤ Tf := by
  intro n
  induction n with
  | zero => exact fun s h => h
  | succ n ih =>
    intro s h
    rw [Function.iterate_succ_apply]
    apply ih
    by_cases h1 : s.t < Tf
    · by_cases h2 : s.t + s.dt > Tf
      · rw [loopIter_clip Tf dx ev s h1 h2]
      · rw [loopIter_step Tf dx ev s h1 h2]
        exact not_lt.mp h2
    · rw [loopIter_none Tf dx ev s h1]
      exact h

theorem loop_reaches {U : Type} (Tf dx : ℚ) (ev : ℚ → U → U) :
    ∀ (n : ℕ) (s : LoopSt U), 0 < s.dt → Tf ≤ s.t + n * s.dt →
      Tf ≤ ((loopIter Tf dx ev)^[n] s).t := by
  intro n
  induction n with
  | zero => intro s _ h; simpa using h
  | succ n ih =>
    intro s hdt h
    by_cases h1 : s.t < Tf
    · by_cases h2 : s.t + s.dt > Tf
      · have hfix : loopIter Tf dx ev (⟨Tf, Tf - s.t, ev ((Tf - s.t) / dx) s.u⟩ : LoopSt U)
            = ⟨Tf, Tf - s.t, ev ((Tf - s.t) / dx) s.u⟩ :=
          loopIter_none Tf dx ev _ (lt_irrefl Tf)
        rw [Function.iterate_succ_apply, loopIter_clip Tf dx ev s h1 h2,
          Function.iterate_fixed hfix]
      · rw [Function.iterate_succ_apply, loopIter_step Tf dx ev s h1 h2]
        refine ih _ hdt ?_
        show Tf ≤ (s.t + s.dt) + (n : ℚ) * s.dt
        push_cast at h
        linarith
    · rw [Function.iterate_fixed (loopIter_none Tf dx ev s h1)]
      exact not_lt.mp h1

theorem loop_dt_invariant {U : Type} (Tf dx : ℚ) (ev : ℚ → U → U) (d0 : ℚ) :
    ∀ (n : ℕ) (s : LoopSt U), s.dt = d0 ∨ Tf ≤ s.t →
      ((loopIter Tf dx ev)^[n] s).dt = d0 ∨ Tf ≤ ((loopIter Tf dx ev)^[n] s).t := by
  intro n
  induction n with
  | zero => exact fun s h => h
  | succ n ih =>
    intro s h
    rw [Function.iterate_succ_apply]
    apply ih
    by_cases h1 : s.t < Tf
    · rcases h with hdt | hge
      · by_cases h2 : s.t + s.dt > Tf
        · right
          rw [loopIter_clip Tf dx ev s h1 h2]
        · left
          rw [loopIter_step Tf dx ev s h1 h2]
          exact hdt
      · exact absurd h1 (not_lt.mpr hge)
    · rw [loopIter_none Tf dx ev s h1]
      exact h

/-! ## Claims -/

/-- C1: for every interior face `m` between cells `m-1` and `m` the assembler
adds the numerical flux weighted by the edge row `Vu[-1,:]` to cell `m-1` and
subtracts it weighted by `Vu[0,:]` from cell `m` (definition `faceInterior`),
so that, under the basis facts the claim assumes (mode 0 of the orthonormal
basis is the constant 1, its gradient vanishes, and the quadrature mass vector
of the basis is `(2, 0, ..., 0)`), the interior faces contribute exactly zero
to the total-mass residual and the assembled total-mass residual equals
`dx * (f_last - f_first)`: total mass changes only through the two
domain-boundary fluxes. -/
theorem C1_interior_faces_conserve_mass (C : DGCtx) (dx : ℚ) (u : EState)
    (hnc : 0 < C.nc)
    (hq : ∀ j ∈ Finset.range (C.k + 1),
      ∑ q ∈ Finset.range (C.k + 1), C.wg q * Vf C q j = if j = 0 then 2 else 0)
    (h0 : ∀ x, C.shape_value 0 x = 1)
    (hg0 : ∀ x, C.shape_grad 0 x = 0) :
    massOf C dx (fun i j => faceInterior C (fun f => f.1) u i j) = 0 ∧
    massOf C dx (fun i j => resr C u i j)
      = dx * ((lastF C u).1 - (firstF C u).1) := by
  constructor
  · rw [massOf_eq_sum C dx _ hq, sum_faceInterior_mode0 C _ u h0, mul_zero]
  · rw [massOf_eq_sum C dx _ hq]
    have hsum : ∑ i ∈ Finset.range C.nc, resr C u i 0
        = (lastF C u).1 - (firstF C u).1 := by
      unfold resr
      rw [Finset.sum_add_distrib,
        Finset.sum_congr rfl fun i _ => volres_mode0 C _ u i hg0,
        Finset.sum_const_zero, zero_add]
      exact sum_faceres_mode0 C _ u hnc h0
    rw [hsum]

theorem C1_interior_faces_conserve_mass_witness :
    massOf Cw1 1 (fun i j => faceInterior Cw1 (fun f => f.1) uw1 i j) = 0 ∧
    massOf Cw1 1 (fun i j => resr Cw1 uw1 i j)
      = 1 * ((lastF Cw1 uw1).1 - (firstF Cw1 uw1).1) :=
  C1_interior_faces_conserve_mass Cw1 1 uw1 (by norm_num [Cw1])
    (by norm_num [Finset.sum_range_succ, Vf, Cw1]) (fun x => rfl) (fun x => rfl)

/-- C2: the code at the last (right-boundary) face evaluates the last cell with
row `Vu[0,:]` — the LEFT edge — instead of the right (outward) edge row
`Vu[nu-1,:]` claimed by the spec: in the degree-1, one-cell instance `Cx2`
whose density polynomial is `rho(z) = z`, the density passed to the numerical
flux at the last face is `-1` (the left-edge value), while the value at the
right edge of the cell is `+1`. -/
theorem C2_last_face_uses_left_edge :
    (lastF Cx2 ux2).1 = -1 ∧
    edgeVal Cx2 ux2.rho (Cx2.nc - 1) 0 = -1 ∧
    edgeVal Cx2 ux2.rho (Cx2.nc - 1) (nuOf Cx2.k - 1) = 1 ∧
    (lastF Cx2 ux2).1 ≠ edgeVal Cx2 ux2.rho (Cx2.nc - 1) (nuOf Cx2.k - 1) := by
  norm_num [lastF, edgeState, edgeVal, Vu, xu, nuOf, Vf, Cx2, ux2,
    Finset.sum_range_succ]

/-- C3: one time step is exactly three RK stages: the coefficient arrays are
`ark = [0, 3/4, 1/3]` and `brk = 1 - ark`, and unfolding the stage loop, the
working state after the step is the stage-2 output of the recursion
`u1 = ark[rk]*u0 + (1 - ark[rk])*(u1 - lam*residual(u1))` applied for
`rk = 0, 1, 2` with `u0` the step-start state, for all three fields. -/
theorem C3_ssprk3_three_stages (C : DGCtx) (lam : ℚ) (u : EState) :
    (arkN 0 = 0 ∧ arkN 1 = 3 / 4 ∧ arkN 2 = 1 / 3 ∧ ∀ r, brkN r = 1 - arkN r) ∧
    eulerStep C lam u =
      (let v1 : EState :=
        ⟨fun i j => 0 * u.rho i j + (1 - 0) * (u.rho i j - lam * resr C u i j),
         fun i j => 0 * u.mom i j + (1 - 0) * (u.mom i j - lam * resm C u i j),
         fun i j => 0 * u.ene i j + (1 - 0) * (u.ene i j - lam * rese C u i j)⟩
       let v2 : EState :=
        ⟨fun i j => 3 / 4 * u.rho i j + (1 - 3 / 4) * (v1.rho i j - lam * resr C v1 i j),
         fun i j => 3 / 4 * u.mom i j + (1 - 3 / 4) * (v1.mom i j - lam * resm C v1 i j),
         fun i j => 3 / 4 * u.ene i j + (1 - 3 / 4) * (v1.ene i j - lam * rese C v1 i j)⟩
       ⟨fun i j => 1 / 3 * u.rho i j + (1 - 1 / 3) * (v2.rho i j - lam * resr C v2 i j),
        fun i j => 1 / 3 * u.mom i j + (1 - 1 / 3) * (v2.mom i j - lam * resm C v2 i j),
        fun i j => 1 / 3 * u.ene i j + (1 - 1 / 3) * (v2.ene i j - lam * rese C v2 i j)⟩) :=
  ⟨⟨rfl, rfl, rfl, fun _ => rfl⟩, rfl⟩

theorem Ico_one_two : Finset.Ico 1 2 = ({1} : Finset ℕ) := rfl

/-- C4: REFUTED — the code computes `dt` once before the loop from the initial
state (euler.py line 124) and never recomputes it, so at the second step of the
concrete run `Cx4` (whose energy field, and hence the collaborator-supplied
maximum wave speed, changes in the first step) the step neither overshoots `Tf`
nor satisfies `dt = cfl*dx/max_speed(current state)`. -/
theorem C4_dt_not_recomputed_cx :
    ((loopIter 1 (1/2) (eulerStep Cx4))^[1] ⟨0, cflOf 1 Cx4.k * (1/2) / ms4 ux4, ux4⟩).t < 1 ∧
    ((loopIter 1 (1/2) (eulerStep Cx4))^[1] ⟨0, cflOf 1 Cx4.k * (1/2) / ms4 ux4, ux4⟩).t
      + ((loopIter 1 (1/2) (eulerStep Cx4))^[1] ⟨0, cflOf 1 Cx4.k * (1/2) / ms4 ux4, ux4⟩).dt ≤ 1 ∧
    ((loopIter 1 (1/2) (eulerStep Cx4))^[1] ⟨0, cflOf 1 Cx4.k * (1/2) / ms4 ux4, ux4⟩).dt
      ≠ cflOf 1 Cx4.k * (1/2)
          / ms4 (((loopIter 1 (1/2) (eulerStep Cx4))^[1] ⟨0, cflOf 1 Cx4.k * (1/2) / ms4 ux4, ux4⟩).u) := by
  have hdt0 : cflOf 1 Cx4.k * (1/2) / ms4 ux4 = 1/10 := by
    norm_num [cflOf, ms4, Cx4, ux4]
  have hs : (loopIter 1 (1/2) (eulerStep Cx4))^[1] ⟨0, cflOf 1 Cx4.k * (1/2) / ms4 ux4, ux4⟩
      = ⟨0 + 1/10, 1/10, eulerStep Cx4 ((1/10) / (1/2)) ux4⟩ := by
    rw [Function.iterate_one, hdt0]
    rw [loopIter_step 1 (1/2) (eulerStep Cx4) ⟨0, 1/10, ux4⟩ (by norm_num) (by norm_num)]
  rw [hs]
  have hene : (eulerStep Cx4 ((1/10) / (1/2)) ux4).ene 0 0 = -2/5 := by
    norm_num [eulerStep, stageU, resr, resm, rese, volres, faceres, faceInterior,
      firstF, intF, lastF, edgeState, edgeVal, gaussFlux, evalVf, Vf, Vg, Vu, xu,
      nuOf, Cx4, ux4, arkN, brkN, Ico_one_two, Finset.sum_range_succ, List.range_succ]
  refine ⟨by norm_num, by norm_num, ?_⟩
  show (1:ℚ)/10 ≠ cflOf 1 Cx4.k * (1/2) / ms4 (eulerStep Cx4 ((1/10) / (1/2)) ux4)
  rw [show ms4 (eulerStep Cx4 ((1/10) / (1/2)) ux4) = -2/5 + 5 from by rw [ms4]; rw [hene]]
  norm_num [cflOf, Cx4]

/-- C4 amended: `dt` is computed once, before the loop, as
`cfl*dx/max_speed` over the INITIAL state with `cfl = args.cfl/(2k+1)`, and at
every step of the loop that has not yet reached `Tf` the step size still equals
that initial value — it is never recomputed from the current state (it
coincides with the claimed per-step value only while `max_speed` of the current
state equals the initial one, e.g. at the first step). -/
theorem C4_dt_fixed_from_init (C : DGCtx) (Tf dx argcfl : ℚ) (ms : EState → ℚ)
    (u0 : EState) (n : ℕ)
    (h : ((loopIter Tf dx (eulerStep C))^[n] ⟨0, cflOf argcfl C.k * dx / ms u0, u0⟩).t < Tf) :
    ((loopIter Tf dx (eulerStep C))^[n] ⟨0, cflOf argcfl C.k * dx / ms u0, u0⟩).dt
      = cflOf argcfl C.k * dx / ms u0 := by
  rcases loop_dt_invariant Tf dx (eulerStep C) (cflOf argcfl C.k * dx / ms u0) n
      ⟨0, cflOf argcfl C.k * dx / ms u0, u0⟩ (Or.inl rfl) with hdt | hge
  · exact hdt
  · exact absurd h (not_lt.mpr hge)

theorem C4_dt_fixed_from_init_witness :
    ((loopIter 1 (1/2) (eulerStep Cx4))^[0] ⟨0, cflOf 1 Cx4.k * (1/2) / ms4 ux4, ux4⟩).dt
      = cflOf 1 Cx4.k * (1/2) / ms4 ux4 :=
  C4_dt_fixed_from_init Cx4 1 (1/2) 1 ms4 ux4 0 (by norm_num)

/-- C5: REFUTED — the RK stage loop of the code contains no limiter
invocation at all (the `-limit`/`-tvbM` arguments are parsed and
`Mdx2 = tvbM*dx**2` is computed at line 41 but never used): in the zero-flux
instance `Cx5` the residual vanishes, so the spec-modelled step that applies a
limiter after each stage returns the limited state, while the code step
returns the state unchanged; with the clamp-to-zero limiter the two differ. -/
theorem C5_limiter_never_invoked :
    (eulerStep Cx5 1 ux5).rho 0 0 = 1 ∧
    (stepLimited Cx5 1 limZero 0 ux5).rho 0 0 = 0 ∧
    (eulerStep Cx5 1 ux5).rho 0 0 ≠ (stepLimited Cx5 1 limZero 0 ux5).rho 0 0 := by
  have h1 : (eulerStep Cx5 1 ux5).rho 0 0 = 1 := by
    norm_num [eulerStep, stageU, resr, resm, rese, volres, faceres, faceInterior,
      firstF, intF, lastF, edgeState, edgeVal, gaussFlux, evalVf, Vf, Vg, Vu, xu,
      nuOf, Cx5, ux5, arkN, brkN, Finset.Ico_self, Finset.sum_range_succ,
      List.range_succ]
  have h2 : (stepLimited Cx5 1 limZero 0 ux5).rho 0 0 = 0 := by
    norm_num [stepLimited, limZero, zeroSt, List.range_succ]
  exact ⟨h1, h2, by rw [h1, h2]; norm_num⟩

/-- C6: when `t + dt` would exceed `Tf` the iteration clips `dt` to `Tf - t`
and rescales `lam` to `(Tf - t)/dx` before the stages run and lands exactly at
`t = Tf`; once `Tf ≤ t` the loop is a fixed point (it terminates after the
clipped step); the simulated time never advances past `Tf`; and whenever the
initial `dt` is strictly positive the loop reaches its fixed point after
finitely many steps. -/
theorem C6_clip_and_terminate {U : Type} (Tf dx : ℚ) (ev : ℚ → U → U)
    (s₀ : LoopSt U) (hdt : 0 < s₀.dt) (ht0 : s₀.t ≤ Tf) :
    (∀ s : LoopSt U, s.t < Tf → s.t + s.dt > Tf →
        loopIter Tf dx ev s = ⟨Tf, Tf - s.t, ev ((Tf - s.t) / dx) s.u⟩) ∧
    (∀ s : LoopSt U, Tf ≤ s.t → loopIter Tf dx ev s = s) ∧
    (∀ n : ℕ, ((loopIter Tf dx ev)^[n] s₀).t ≤ Tf) ∧
    (∃ n : ℕ, (loopIter Tf dx ev)^[n + 1] s₀ = (loopIter Tf dx ev)^[n] s₀) := by
  refine ⟨fun s h1 h2 => loopIter_clip Tf dx ev s h1 h2,
    fun s h => loopIter_none Tf dx ev s (not_lt.mpr h),
    fun n => loop_t_le Tf dx ev n s₀ ht0, ?_⟩
  obtain ⟨n, hn⟩ := exists_nat_ge ((Tf - s₀.t) / s₀.dt)
  have hTf : Tf ≤ s₀.t + n * s₀.dt := by
    have h2 := mul_le_mul_of_nonneg_right hn (le_of_lt hdt)
    rw [div_mul_cancel₀ _ (ne_of_gt hdt)] at h2
    linarith
  refine ⟨n, ?_⟩
  rw [Function.iterate_succ_apply']
  exact loopIter_none Tf dx ev _ (not_lt.mpr (loop_reaches Tf dx ev n s₀ hdt hTf))

theorem C6_clip_and_terminate_witness :
    (∃ n : ℕ, (loopIter (2:ℚ) 1 (fun _ x => x))^[n + 1] (⟨0, 1, 5⟩ : LoopSt ℚ)
       = (loopIter (2:ℚ) 1 (fun _ x => x))^[n] (⟨0, 1, 5⟩ : LoopSt ℚ)) ∧
    ((loopIter (2:ℚ) 1 (fun _ x => x))^[3] (⟨0, 1, 5⟩ : LoopSt ℚ)).t ≤ 2 := by
  have h := C6_clip_and_terminate (2:ℚ) 1 (fun _ x => x) (⟨0, 1, 5⟩ : LoopSt ℚ)
    (by norm_num) (by norm_num)
  exact ⟨h.2.2.2, h.2.2.1 3⟩

/-- C7: the L2 projection initializer applied to a field that is constant `c`
produces, in every cell and for every degree, modal coefficients whose
per-cell polynomial is exactly the constant `c`, under the discrete facts the
claim assumes of the collaborators: the Gauss rule integrates the constant 1
exactly (`sum wg = 2`), every higher basis mode has zero quadrature mean
(orthogonality to mode 0 plus exactness), and mode 0 is the constant 1. -/
theorem C7_project_constant (C : DGCtx) (xmin dx c z : ℚ) (i : ℕ)
    (h3 : ∑ q ∈ Finset.range (C.k + 1), C.wg q = 2)
    (h2 : ∀ j ∈ Finset.range (C.k + 1), j ≠ 0 →
      ∑ q ∈ Finset.range (C.k + 1), C.wg q * Vf C q j = 0)
    (h0 : ∀ x, C.shape_value 0 x = 1) :
    cellPoly C (l2proj C xmin dx fun _ => c) i z = c := by
  have hcoef : ∀ j ∈ Finset.range (C.k + 1),
      l2proj C xmin dx (fun _ => c) i j = if j = 0 then c else 0 := by
    intro j hj
    simp only [l2proj]
    by_cases h : j = 0
    · subst h
      rw [if_pos rfl]
      have he : ∀ q ∈ Finset.range (C.k + 1),
          c * Vf C q 0 * C.wg q = c * C.wg q := by
        intro q _
        rw [show Vf C q 0 = 1 from h0 (C.xg q)]
        ring
      rw [Finset.sum_congr rfl he, ← Finset.mul_sum, h3]
      ring
    · rw [if_neg h]
      have he : ∀ q ∈ Finset.range (C.k + 1),
          c * Vf C q j * C.wg q = c * (C.wg q * Vf C q j) := by
        intro q _
        ring
      rw [Finset.sum_congr rfl he, ← Finset.mul_sum, h2 j hj h]
      ring
  unfold cellPoly
  rw [Finset.sum_congr rfl fun j hj => by rw [hcoef j hj]]
  have he : ∀ j ∈ Finset.range (C.k + 1),
      (if j = 0 then c else 0) * C.shape_value j z
        = if j = 0 then c * C.shape_value 0 z else 0 := by
    intro j _
    by_cases h : j = 0 <;> simp [h]
  rw [Finset.sum_congr rfl he, sum_ite_eq_range, if_pos (by omega : 0 < C.k + 1), h0 z]
  ring

theorem C7_project_constant_witness :
    cellPoly Cw7 (l2proj Cw7 0 1 fun _ => 5) 0 (1/3) = 5 :=
  C7_project_constant Cw7 0 1 5 (1/3) 0
    (by norm_num [Cw7, Finset.sum_range_succ])
    (by
      intro j hj hj0
      rw [Finset.mem_range, show Cw7.k = 1 from rfl] at hj
      have hj1 : j = 1 := by omega
      subst hj1
      norm_num [Finset.sum_range_succ, Vf, Cw7])
    (fun x => rfl)

/-- C8: REFUTED — the program performs no validation of the degree, cell
count, CFL number or final time before the simulation: `badConfig`, which is
invalid in all four parameters, passes the only pre-simulation gate (the
initial-condition selector check). -/
theorem C8_invalid_config_accepted :
    (badConfig.degree < 0 ∧ badConfig.ncell ≤ 0 ∧ badConfig.cfl ≤ 0 ∧ badConfig.Tf ≤ 0)
      ∧ configAccepted badConfig = true := by
  refine ⟨⟨by norm_num [badConfig], by norm_num [badConfig], by norm_num [badConfig],
    by norm_num [badConfig]⟩, by norm_num [configAccepted, badConfig]⟩

/-- C8 amended: the only configuration check the program performs before the
simulation starts is that the initial-condition selector equals `sod`
(euler.py lines 29-33); degree, cell count, CFL number and final time are
accepted without any validation. -/
theorem C8_only_ic_checked (c : Config) :
    configAccepted c = true ↔ c.ic = "sod" := by
  simp [configAccepted]

theorem C8_only_ic_checked_witness : configAccepted badConfig = true :=
  (C8_only_ic_checked badConfig).mpr rfl

/-- C9: `nu = max(2, k+1)` is at least 2 for every degree, so the two edge
rows `Vu[0]` and `Vu[nu-1]` read by the face-term code are distinct in-bounds
row indices even when `nd = k+1 = 1`; and for every `nc ≥ 1` all cell indices
touched by the volume loop and the face loops — `0`, `nc-1`, and `i-1`, `i`
for `1 ≤ i < nc` — are in bounds of the `[nc][nd]` arrays. -/
theorem C9_index_bounds (k nc : ℕ) (hnc : 1 ≤ nc) :
    2 ≤ nuOf k ∧ 0 < nuOf k ∧ nuOf k - 1 < nuOf k ∧ 0 ≠ nuOf k - 1 ∧
    0 < nc ∧ nc - 1 < nc ∧ ∀ i, 1 ≤ i → i < nc → i - 1 < nc ∧ i < nc := by
  have h2 : 2 ≤ nuOf k := le_max_left 2 (k + 1)
  exact ⟨h2, by omega, by omega, by omega, by omega, by omega,
    fun i h1 hi => ⟨by omega, hi⟩⟩

theorem C9_index_bounds_witness :
    2 ≤ nuOf 0 ∧ 0 < nuOf 0 ∧ nuOf 0 - 1 < nuOf 0 ∧ 0 ≠ nuOf 0 - 1 ∧
    0 < 3 ∧ 3 - 1 < 3 ∧ ((2:ℕ) - 1 < 3 ∧ 2 < 3) := by
  have h := C9_index_bounds 0 3 (by decide)
  exact ⟨h.1, h.2.1, h.2.2.1, h.2.2.2.1, h.2.2.2.2.1, h.2.2.2.2.2.1,
    h.2.2.2.2.2.2 2 (by decide) (by decide)⟩

/-- C10: within one time step the step-start copies are written once, before
stage 0 (`bufStep` sets them to the working state), are never modified by any
stage, and still equal the true step-start state after all three stages; the
residual buffers are fully overwritten from the current working state at each
stage, so the step result is independent of whatever residual (or stale
step-start) values the buffers held before the step, and coincides with the
pure three-stage recursion on the step-start state. -/
theorem C10_buffer_discipline (C : DGCtx) (lam : ℚ) (B Bb : Buffers)
    (h : B.uw = Bb.uw) :
    (∀ r b, (bufStage C lam r b).us = b.us) ∧
    (∀ r b, (bufStage C lam r b).rr = fun i j => resr C b.uw i j) ∧
    (bufStep C lam B).us = B.uw ∧
    (bufStep C lam B).uw = (bufStep C lam Bb).uw ∧
    (bufStep C lam B).uw = eulerStep C lam B.uw := by
  have key : ∀ Bc : Buffers, (bufStep C lam Bc).uw = eulerStep C lam Bc.uw :=
    fun _ => rfl
  exact ⟨fun _ _ => rfl, fun _ _ => rfl, rfl, by rw [key, key, h], key B⟩

theorem C10_buffer_discipline_witness :
    (bufStep Cx5 1 bufA).us = bufA.uw ∧
    (bufStep Cx5 1 bufA).uw = (bufStep Cx5 1 bufB).uw ∧
    (bufStep Cx5 1 bufA).uw = eulerStep Cx5 1 bufA.uw := by
  have h := C10_buffer_discipline Cx5 1 bufA bufB rfl
  exact ⟨h.2.2.1, h.2.2.2.1, h.2.2.2.2⟩

end DG1D
